import Mathlib

/-!
# The `stream` command of strfry (`src/cmd_stream.cpp`)

A shallow embedding of the three per-connection callbacks installed by
`cmd_stream` (`onConnect`, `onMessage`, `onTrigger`) and of the state they
close over (`downloadedIds`, `currEventId`, the writer inbox), followed by
theorems about them.

Conventions of the embedding:

* the variables captured by reference by the callbacks form the record `State`;
  it also records, as append-only traces, what the callbacks hand to their
  collaborators: the frames passed to `ws->send`, the items pushed to
  `writer.inbox`, and the lines written to the log;
* a callback is a function `State → Except Err α × State`: the result is either
  a value or the exception that was thrown, and the state is the one reached
  when the callback returned or threw;
* `uint64_t` values are natural numbers, and `currEventId + 1` is computed
  modulo `2 ^ 64`;
* code that is not part of `cmd_stream.cpp` (the JSON parser and printer,
  `from_hex`, `getEventJson`) is a field of `Externals`.
-/

namespace Strfry

/-! ## JSON values and the accessors used by the callbacks -/

/-- A JSON value as held by `tao::json::value` after parsing.  A double is
kept as the mantissa and exponent of its literal; the callbacks never look
inside a number. -/
inductive Json where
  | null
  | boolean (b : Bool)
  | signed (i : Int)
  | unsigned (n : Nat)
  | double (mantissa : Int) (exponent : Int)
  | string (s : String)
  | array (elems : List Json)
  | object (members : List (String × Json))

/-- The exceptions the callbacks can raise. -/
inductive Err where
  | herr (msg : String)
  | out_of_range
  | bad_variant_access
  | external (msg : String)
deriving DecidableEq

namespace Json

/-- The test `v.is_array()`. -/
def is_array : Json → Bool
  | array _ => true
  | _ => false

/-- The accessor `v.get_array()`: throws unless the value holds an array. -/
def get_array : Json → Except Err (List Json)
  | array elems => .ok elems
  | _ => .error .bad_variant_access

/-- The accessor `v.get_boolean()`: throws unless the value holds a boolean. -/
def get_boolean : Json → Except Err Bool
  | boolean b => .ok b
  | _ => .error .bad_variant_access

/-- The accessor `v.get_string()`: throws unless the value holds a string. -/
def get_string : Json → Except Err String
  | string s => .ok s
  | _ => .error .bad_variant_access

/-- The comparison `v == "literal"`: true exactly for a string value with
that content. -/
def eq_str : Json → String → Bool
  | string s, lit => s == lit
  | _, _ => false

end Json

/-- The bounds-checked `std::vector::at`. -/
def vector_at (v : List Json) (i : Nat) : Except Err Json :=
  match v.get? i with
  | some x => .ok x
  | none => .error .out_of_range

/-- The accessor `v.at(index)` of a JSON value: `get_array().at(index)`. -/
def Json.at_index (v : Json) (i : Nat) : Except Err Json :=
  match v.get_array with
  | .ok elems => vector_at elems i
  | .error e => .error e

/-- The accessor `v.at(key)` of a JSON value: the member of the object with
that key; throws when the value is no object or has no such member. -/
def Json.at_key (v : Json) (key : String) : Except Err Json :=
  match v with
  | .object members =>
    match members.lookup key with
    | some x => .ok x
    | none => .error .out_of_range
  | _ => .error .bad_variant_access

/-! ## The store, the writer inbox and the captured state -/

/-- A record of the `Event` table as seen by the scan: its primary key
(`ev.primaryKeyId`) and the raw identifier of the event
(`ev.flat_nested()->id()`). -/
structure Event where
  primaryKeyId : Nat
  id : String
deriving DecidableEq

/-- Modelled from the spec: the provenance kinds of `events.h`, which is not
part of the sources; the `stream` command only uses `Stream` ("source=Stream"). -/
inductive EventSourceType where
  | None | IP4 | IP6 | Import | Stream | Sync
deriving DecidableEq

/-- An item of `writer.inbox`: the event body, its provenance kind and the
url of the connection it came from. -/
structure WriterPipelineInput where
  eventJson : Json
  sourceType : EventSourceType
  sourceInfo : String

/-- The severity of a log line: `LI` or `LW`. -/
inductive LogLevel where
  | info | warning
deriving DecidableEq

/-- A line written to the log: its text and, when a JSON value is streamed
after the text, that value. -/
structure LogLine where
  level : LogLevel
  text : String
  value : Option Json

/-- A connection of `wss`: its position in `wss` and its url. -/
structure WSConnection where
  slot : Nat
  url : String
deriving DecidableEq

/-- What the callbacks share and what they emit.  `downloadedIds` and
`currEventId` are the two captured variables of `cmd_stream`; `inbox`, `sent`
and `log` are the traces of `writer.inbox.push_move`, `ws->send` (tagged
with the slot of the connection) and `LI`/`LW`, oldest first. -/
structure State where
  downloadedIds : Finset String
  currEventId : Nat
  inbox : List WriterPipelineInput
  sent : List (Nat × String)
  log : List LogLine

/-- The helpers `cmd_stream` calls that live outside `cmd_stream.cpp`:
`tao::json::from_string`, `tao::json::to_string`, `from_hex`, and
`getEventJson` (the serialized payload of the event with a given primary key
in the read transaction). -/
structure Externals where
  from_string : String → Except Err Json
  to_string : Json → String
  from_hex : String → Except Err String
  getEventJson : Nat → String

/-! ## Callbacks as state transformers that may throw -/

/-- A callback body: runs on a state, returns a value or throws, and leaves
a state behind either way. -/
def Handler (α : Type) : Type := State → Except Err α × State

namespace Handler

/-- Return a value, state untouched. -/
def ret {α : Type} (a : α) : Handler α := fun s => (.ok a, s)

/-- Sequencing: an exception of the first part skips the second. -/
def andThen {α β : Type} (m : Handler α) (f : α → Handler β) : Handler β := fun s =>
  match m s with
  | (.ok a, s1) => f a s1
  | (.error e, s1) => (.error e, s1)

instance : Monad Handler where
  pure := ret
  bind := andThen

/-- The statement `throw e`. -/
def raise {α : Type} (e : Err) : Handler α := fun s => (.error e, s)

/-- Use the result of a helper that may throw. -/
def lift {α : Type} (r : Except Err α) : Handler α := fun s => (r, s)

/-- Read the captured state. -/
def getState : Handler State := fun s => (.ok s, s)

/-- Update the captured state. -/
def update (f : State → State) : Handler Unit := fun s => (.ok (), f s)

end Handler

open Handler

/-- The call `ws->send(msg)`. -/
def send (ws : WSConnection) (msg : String) : Handler Unit :=
  update fun s => { s with sent := s.sent ++ [(ws.slot, msg)] }

/-- A log statement `LI << ...` or `LW << ...`. -/
def logLine (level : LogLevel) (text : String) (value : Option Json) : Handler Unit :=
  update fun s => { s with log := s.log ++ [⟨level, text, value⟩] }

/-- The width of `uint64_t`. -/
def UINT64_SIZE : Nat := 2 ^ 64

/-- Modelled from the spec: `env.foreach_Event` of the generated store
interface, which is not part of the sources ("an ordered forward iteration of
events", "visiting in increasing sequence order, stoppable early by the visitor
returning false").  The loop over the records the cursor walks through. -/
def foreach_loop (cb : Event → Handler Bool) : List Event → Handler Unit
  | [] => pure ()
  | ev :: rest => do
    if (← cb ev) then foreach_loop cb rest else pure ()

/-- Modelled from the spec: the records a cursor of `env.foreach_Event` walks
through, in the order it reaches them.  `table` is the `Event` table of the
read transaction in key order.  Going forward the cursor is placed on the first
record whose key is at least `startingPoint` and walks to the end of the table;
going backward it is placed on the last record whose key is at most
`startingPoint` and walks to the beginning. -/
def cursorRange (table : List Event) (reverse : Bool) (startingPoint : Option Nat) :
    List Event :=
  match reverse, startingPoint with
  | false, none => table
  | false, some k => table.dropWhile fun ev => ev.primaryKeyId < k
  | true, none => table.reverse
  | true, some k => table.reverse.dropWhile fun ev => k < ev.primaryKeyId

/-- Modelled from the spec: `env.foreach_Event(txn, cb, reverse, startingPoint)`,
the visitor applied to the records of `cursorRange` until it returns false. -/
def foreach_Event (table : List Event) (cb : Event → Handler Bool)
    (reverse : Bool) (startingPoint : Option Nat) : Handler Unit :=
  foreach_loop cb (cursorRange table reverse startingPoint)

/-- Modelled from the spec: `getMostRecentLevId(txn)`, which is not part of the
sources ("the store's current most-recent sequence id"): the key of the last
record of the table, `0` for an empty table. -/
def getMostRecentLevId (table : List Event) : Nat :=
  match table.getLast? with
  | some ev => ev.primaryKeyId
  | none => 0

/-! ## The callbacks of `cmd_stream` -/

/-- The `ws->onConnect` callback (lines 62-67). -/
def onConnect (X : Externals) (dir : String) (ws : WSConnection) : Handler Unit := do
  if dir == "down" || dir == "both" then
    let encoded := X.to_string
      (.array [.string "REQ", .string "sub", .object [("limit", .signed 0)]])
    send ws encoded

/-- The `ws->onMessage` callback (lines 69-101). -/
def onMessage (X : Externals) (dir : String) (ws : WSConnection) (msg : String) :
    Handler Unit := do
  let origJson ← lift (X.from_string msg)
  if origJson.is_array then
    if (← lift origJson.get_array).length < 2 then raise (.herr "array too short")
    let msgType ← lift (vector_at (← lift origJson.get_array) 0)
    if msgType.eq_str "EOSE" then
      return
    else if msgType.eq_str "NOTICE" then
      logLine .warning "NOTICE message: " (some origJson)
      return
    else if msgType.eq_str "OK" then
      if !(← lift ((← lift (vector_at (← lift origJson.get_array) 2)).get_boolean)) then
        logLine .warning "Event not written: " (some origJson)
    else if msgType.eq_str "EVENT" then
      if dir == "down" || dir == "both" then
        if (← lift origJson.get_array).length < 3 then raise (.herr "array too short")
        let evJson ← lift (origJson.at_index 2)
        let id ← lift (X.from_hex (← lift (← lift (evJson.at_key "id")).get_string))
        update fun s => { s with downloadedIds := insert id s.downloadedIds }
        logLine .info ("Got event with ID: " ++ (← lift (← lift (evJson.at_key "id")).get_string)) none
        update fun s => { s with inbox := s.inbox ++ [⟨evJson, .Stream, ws.url⟩] }
      else
        logLine .warning "Unexpected EVENT" none
    else
      raise (.herr "unexpected first element")
  else
    raise (.herr "unexpected message")

/-- The visitor passed to `foreach_Event` by `onTrigger` (lines 117-133). -/
def scanVisit (X : Externals) (ws : WSConnection) (ev : Event) : Handler Bool := do
  update fun s => { s with currEventId := ev.primaryKeyId }
  let id := ev.id
  if id ∈ (← getState).downloadedIds then
    update fun s => { s with downloadedIds := s.downloadedIds.erase id }
    return true
  else
    let msg := "[\"EVENT\"," ++ X.getEventJson ev.primaryKeyId ++ "]"
    send ws msg
    return true

/-- The `ws->onTrigger` callback (lines 112-134); `table` is the `Event`
table seen by the read transaction the callback opens. -/
def onTrigger (X : Externals) (dir : String) (ws : WSConnection) (table : List Event) :
    Handler Unit := do
  if dir == "down" then return
  foreach_Event table (scanVisit X ws) false
    (some (((← getState).currEventId + 1) % UINT64_SIZE))

/-! ## Scans of several connections

The callback given to `dbChangeWatcher->run` (lines 144-148) calls
`ws->trigger()` on every connection; each connection then runs its `onTrigger`
on its own thread (lines 153-158), on the shared `currEventId` and
`downloadedIds`.  A run of `onTrigger` is cut here at the points where another
thread can come in between: the call of `foreach_Event`, at which
`currEventId + 1` is read once (line 133), and each call of the visitor.  The
steps of different scans interleave in any order; a step itself is taken as a
whole (`runSchedule_alone` shows that the steps of one scan, taken without
interruption, make up `onTrigger`). -/

/-- Where the `onTrigger` of a connection stands: requested by `trigger()`
and not begun, inside the loop of `foreach_Event` with the records still to
visit, or returned. -/
inductive Scan where
  | requested (ws : WSConnection)
  | running (ws : WSConnection) (pending : List Event)
  | finished (ws : WSConnection)
deriving DecidableEq

/-- The connection a scan belongs to. -/
def Scan.ws : Scan → WSConnection
  | .requested ws => ws
  | .running ws _ => ws
  | .finished ws => ws

/-- One step of the `onTrigger` of a connection (lines 112-134).  A requested
scan returns at once with direction `down`, and otherwise reads
`currEventId + 1` and places the cursor of `foreach_Event`; a running scan calls
the visitor on the next record, and returns when no record is left or the
visitor does not ask to continue. -/
def stepScan (X : Externals) (dir : String) (table : List Event) (sc : Scan) (s : State) :
    Scan × State :=
  match sc with
  | .requested ws =>
    if dir == "down" then (.finished ws, s)
    else (.running ws (cursorRange table false (some ((s.currEventId + 1) % UINT64_SIZE))), s)
  | .running ws [] => (.finished ws, s)
  | .running ws (ev :: rest) =>
    match scanVisit X ws ev s with
    | (.ok true, s1) => (.running ws rest, s1)
    | (_, s1) => (.finished ws, s1)
  | .finished ws => (.finished ws, s)

/-- The scan in position `i` takes one step; the others stand still. -/
def stepAt (X : Externals) (dir : String) (table : List Event) :
    Nat → List Scan → State → List Scan × State
  | _, [], s => ([], s)
  | 0, sc :: rest, s => ((stepScan X dir table sc s).1 :: rest, (stepScan X dir table sc s).2)
  | i + 1, sc :: rest, s =>
    (sc :: (stepAt X dir table i rest s).1, (stepAt X dir table i rest s).2)

/-- The scans take steps in the order given by `schedule`, a list of
positions: an interleaving of the `onTrigger` callbacks of the connections. -/
def runSchedule (X : Externals) (dir : String) (table : List Event) :
    List Nat → List Scan × State → List Scan × State
  | [], cfg => cfg
  | i :: schedule, cfg => runSchedule X dir table schedule (stepAt X dir table i cfg.1 cfg.2)

/-- The captured variables when the callbacks are armed: `downloadedIds` is
empty (line 57), `currEventId` is the most recent key of the store
(lines 104-109), and nothing has been sent, submitted or logged. -/
def startState (table : List Event) : State :=
  ⟨∅, getMostRecentLevId table, [], [], []⟩

/-! ## Derived notions used to state and prove the theorems -/

/-- The state one visit of the scan leaves behind: what `scanVisit` does to
the state, written as a function (see `scanVisit_eq`). -/
def scanStep (X : Externals) (ws : WSConnection) (s : State) (ev : Event) : State :=
  if ev.id ∈ s.downloadedIds then
    { s with currEventId := ev.primaryKeyId, downloadedIds := s.downloadedIds.erase ev.id }
  else
    { s with
      currEventId := ev.primaryKeyId
      sent := s.sent ++ [(ws.slot, "[\"EVENT\"," ++ X.getEventJson ev.primaryKeyId ++ "]")] }

/-- The frames sent so far on the connection in a given slot, oldest first. -/
def framesOn (slot : Nat) (s : State) : List String :=
  (s.sent.filter fun entry => entry.1 = slot).map Prod.snd

/-- The situation of scans that find one record `e` above the cursor they
started from (state `s0`): `visited` lists the connections whose scan has
visited `e`, in the order of the visits.  Used as an invariant of
`runSchedule`. -/
structure SingleRecordInv (X : Externals) (e : Event) (conns : List WSConnection)
    (s0 : State) (scans : List Scan) (st : State) (visited : List WSConnection) : Prop where
  conns_eq : scans.map Scan.ws = conns
  forms : ∀ sc ∈ scans, sc = .requested sc.ws ∨ sc = .running sc.ws [e] ∨
    sc = .running sc.ws [] ∨ sc = .finished sc.ws
  nodup : (visited.map WSConnection.slot).Nodup
  sub : ∀ w ∈ visited, w ∈ conns
  done : ∀ sc ∈ scans, sc.ws.slot ∈ visited.map WSConnection.slot →
    sc = .running sc.ws [] ∨ sc = .finished sc.ws
  sent : st.sent = s0.sent ++
    (if e.id ∈ s0.downloadedIds then visited.tail else visited).map
      (fun w => (w.slot, "[\"EVENT\"," ++ X.getEventJson e.primaryKeyId ++ "]"))
  inbox : st.inbox = s0.inbox
  log : st.log = s0.log
  phase : (visited = [] ∧ st.currEventId = s0.currEventId ∧
      st.downloadedIds = s0.downloadedIds ∧
      ∀ sc ∈ scans, sc = .requested sc.ws ∨ sc = .running sc.ws [e]) ∨
    (visited ≠ [] ∧ st.currEventId = e.primaryKeyId ∧
      st.downloadedIds = s0.downloadedIds.erase e.id)

/-! ## Sample data for the concrete instances -/

/-- The value of a hexadecimal digit. -/
def hexDigit (c : Char) : Option Nat :=
  if '0' ≤ c ∧ c ≤ '9' then some (c.toNat - '0'.toNat)
  else if 'a' ≤ c ∧ c ≤ 'f' then some (c.toNat - 'a'.toNat + 10)
  else if 'A' ≤ c ∧ c ≤ 'F' then some (c.toNat - 'A'.toNat + 10)
  else none

/-- The bytes spelled by a string of hexadecimal digit pairs. -/
def hexBytes : List Char → Option (List Char)
  | [] => some []
  | [_] => none
  | a :: b :: rest =>
    match hexDigit a, hexDigit b, hexBytes rest with
    | some x, some y, some r => some (Char.ofNat (16 * x + y) :: r)
    | _, _, _ => none

/-- The text of an inbound `EVENT` frame whose event has the identifier `ab`. -/
def eventText : String := "[\"EVENT\",\"sub\",\x7b\"id\":\"ab\"\x7d]"

/-- Sample helpers: a parser that knows the handful of frames used below, a
printer that is only ever applied to the `REQ` envelope, a hexadecimal
decoder, and payloads that spell out the primary key. -/
def sampleExternals : Externals where
  from_string := fun text =>
    if text = eventText then
      .ok (.array [.string "EVENT", .string "sub", .object [("id", .string "ab")]])
    else if text = "[\"OK\",\"ab\"]" then
      .ok (.array [.string "OK", .string "ab"])
    else if text = "[\"OK\",\"ab\",false,\"blocked\"]" then
      .ok (.array [.string "OK", .string "ab", .boolean false, .string "blocked"])
    else if text = "[\"BADTAG\",1]" then
      .ok (.array [.string "BADTAG", .unsigned 1])
    else .error (.external "parse error")
  to_string := fun _ => "[\"REQ\",\"sub\",\x7b\"limit\":0\x7d]"
  from_hex := fun hex =>
    match hexBytes hex.data with
    | some bytes => .ok (String.mk bytes)
    | none => .error (.external "invalid hex")
  getEventJson := fun levId => "\x7b\"lev\":" ++ toString levId ++ "\x7d"

/-- A first connection. -/
def relayP : WSConnection := ⟨0, "wss://relay.one"⟩

/-- A second connection. -/
def relayQ : WSConnection := ⟨1, "ws://relay.two"⟩

/-- A store holding the sequence ids 1 to 5. -/
def fiveEvents : List Event :=
  [⟨1, "\x01"⟩, ⟨2, "\x02"⟩, ⟨3, "\x03"⟩, ⟨4, "\x04"⟩, ⟨5, "\x05"⟩]

/-- The event written next: sequence id 6, identifier the byte `ab`. -/
def sixthEvent : Event := ⟨6, "\xab"⟩

/-- A store whose two records carry the two largest keys of `uint64_t`. -/
def lastKeys : List Event := [⟨2 ^ 64 - 2, "\x01"⟩, ⟨2 ^ 64 - 1, "\x02"⟩]

/-- Three records written after `fiveEvents`; the identifier of the second
one is the byte `07`. -/
def threeNew : List Event := [⟨6, "\xab"⟩, ⟨7, "\x07"⟩, ⟨8, "\x08"⟩]

/-- A state with the cursor on 5 and the byte `07` in the Dedup Set. -/
def markedState : State := ⟨{"\x07"}, 5, [], [], []⟩

/-! ## The scan as a fold -/

/-- One visit never throws, always asks to continue, and leaves `scanStep`. -/
theorem scanVisit_eq (X : Externals) (ws : WSConnection) (ev : Event) (s : State) :
    scanVisit X ws ev s = (.ok true, scanStep X ws s ev) := by
  by_cases h : ev.id ∈ s.downloadedIds <;>
    simp [scanVisit, scanStep, h, bind, andThen, update, getState, send, pure, ret]

/-- The loop of `foreach_Event` with the visitor of `onTrigger` walks through
the whole range. -/
theorem foreach_loop_scanVisit (X : Externals) (ws : WSConnection) (es : List Event)
    (s : State) :
    foreach_loop (scanVisit X ws) es s = (.ok (), es.foldl (scanStep X ws) s) := by
  induction es generalizing s with
  | nil => rfl
  | cons ev rest ih =>
    simp only [foreach_loop, bind, andThen, scanVisit_eq, List.foldl_cons]
    simpa using ih _

/-- Outside direction `down`, `onTrigger` returns normally after folding
`scanStep` over the records from `currEventId + 1` on. -/
theorem onTrigger_eq (X : Externals) (dir : String) (ws : WSConnection) (table : List Event)
    (s : State) (hdir : dir ≠ "down") :
    onTrigger X dir ws table s =
      (.ok (), (cursorRange table false (some ((s.currEventId + 1) % UINT64_SIZE))).foldl
        (scanStep X ws) s) := by
  simp [onTrigger, hdir, bind, andThen, getState, pure, ret, foreach_Event,
    foreach_loop_scanVisit]

/-- The directions `up` and `both` differ from `down`. -/
theorem up_or_both_ne_down (dir : String) (hdir : dir = "up" ∨ dir = "both") :
    dir ≠ "down" := by
  rcases hdir with rfl | rfl <;> decide

/-- A scan moves the cursor to the key of the last record visited. -/
theorem scan_currEventId (X : Externals) (ws : WSConnection) (es : List Event) (s : State) :
    (es.foldl (scanStep X ws) s).currEventId =
      (es.getLast?.map Event.primaryKeyId).getD s.currEventId := by
  induction es generalizing s with
  | nil => simp
  | cons ev rest ih =>
    rw [List.foldl_cons, ih]
    cases rest with
    | nil => unfold scanStep; split <;> simp
    | cons e2 r2 =>
      rw [List.getLast?_cons_cons, List.getLast?_eq_getLast _ (List.cons_ne_nil e2 r2)]
      simp

/-- A scan removes from `downloadedIds` the identifiers of the records visited,
and nothing else. -/
theorem scan_downloadedIds (X : Externals) (ws : WSConnection) (es : List Event)
    (s : State) :
    (es.foldl (scanStep X ws) s).downloadedIds =
      s.downloadedIds \ (es.map Event.id).toFinset := by
  induction es generalizing s with
  | nil => simp
  | cons ev rest ih =>
    rw [List.foldl_cons, ih]
    have h1 : (scanStep X ws s ev).downloadedIds = s.downloadedIds.erase ev.id := by
      unfold scanStep
      split
      · rfl
      · rename_i h; simp [Finset.erase_eq_of_not_mem h]
    rw [h1]
    ext i
    simp only [Finset.mem_sdiff, Finset.mem_erase, List.mem_toFinset, List.map_cons,
      List.mem_cons]
    tauto

/-- A scan over records with pairwise distinct identifiers sends, in order, the
frames of the records whose identifier was not in `downloadedIds`. -/
theorem scan_sent (X : Externals) (ws : WSConnection) (es : List Event) (s : State)
    (hnodup : (es.map Event.id).Nodup) :
    (es.foldl (scanStep X ws) s).sent =
      s.sent ++ (es.filter fun e => e.id ∉ s.downloadedIds).map
        fun e => (ws.slot, "[\"EVENT\"," ++ X.getEventJson e.primaryKeyId ++ "]") := by
  induction es generalizing s with
  | nil => simp
  | cons ev rest ih =>
    rw [List.map_cons, List.nodup_cons] at hnodup
    rw [List.foldl_cons, ih _ hnodup.2]
    by_cases h : ev.id ∈ s.downloadedIds
    · have hf : (rest.filter fun e => e.id ∉ (scanStep X ws s ev).downloadedIds) =
          rest.filter fun e => e.id ∉ s.downloadedIds := by
        apply List.filter_congr
        intro e he
        have hne : e.id ≠ ev.id := by
          intro heq
          exact hnodup.1 (heq ▸ List.mem_map_of_mem Event.id he)
        simp [scanStep, h, Finset.mem_erase, hne]
      rw [hf]
      simp [scanStep, h]
    · simp [scanStep, h]

/-- In a range with strictly increasing keys no key exceeds the last one. -/
theorem sorted_le_last (es : List Event)
    (hsorted : es.Pairwise fun a b => a.primaryKeyId < b.primaryKeyId)
    (c : Nat) (e : Event) (he : e ∈ es) :
    e.primaryKeyId ≤ (es.getLast?.map Event.primaryKeyId).getD c := by
  have hne : es ≠ [] := List.ne_nil_of_mem he
  rw [List.getLast?_eq_getLast _ hne]
  simp only [Option.map_some', Option.getD_some]
  rw [← List.dropLast_append_getLast hne, List.pairwise_append] at hsorted
  rw [← List.dropLast_append_getLast hne, List.mem_append] at he
  rcases he with he | he
  · exact Nat.le_of_lt (hsorted.2.2 e he _ (List.mem_singleton.2 rfl))
  · rw [List.mem_singleton.1 he]

/-- When every key of the range is above the cursor, so is the key the scan
ends on, if any. -/
theorem last_ge_cursor (es : List Event) (c : Nat)
    (hgt : ∀ e ∈ es, c < e.primaryKeyId) :
    c ≤ (es.getLast?.map Event.primaryKeyId).getD c := by
  cases es with
  | nil => simp
  | cons a r =>
    rw [List.getLast?_eq_getLast _ (List.cons_ne_nil a r)]
    simp only [Option.map_some', Option.getD_some]
    exact Nat.le_of_lt (hgt _ (List.getLast_mem _))

/-- After a scan that ended below the largest `uint64_t`, the range from the
new cursor on is empty. -/
theorem range_after_scan (table : List Event) (c : Nat)
    (hsorted : (cursorRange table false (some ((c + 1) % UINT64_SIZE))).Pairwise
      fun a b => a.primaryKeyId < b.primaryKeyId)
    (hgt : ∀ e ∈ cursorRange table false (some ((c + 1) % UINT64_SIZE)), c < e.primaryKeyId)
    (hfit : ((cursorRange table false (some ((c + 1) % UINT64_SIZE))).getLast?.map
      Event.primaryKeyId).getD c + 1 < UINT64_SIZE) :
    cursorRange table false (some ((((cursorRange table false
      (some ((c + 1) % UINT64_SIZE))).getLast?.map Event.primaryKeyId).getD c + 1)
        % UINT64_SIZE)) = [] := by
  rw [Nat.mod_eq_of_lt hfit]
  generalize hes : cursorRange table false (some ((c + 1) % UINT64_SIZE)) = es at *
  have hle := last_ge_cursor es c hgt
  simp only [cursorRange] at hes ⊢
  rw [List.dropWhile_eq_nil_iff]
  intro x hx
  rw [← List.takeWhile_append_dropWhile
    (fun ev => decide (ev.primaryKeyId < (c + 1) % UINT64_SIZE)) table, List.mem_append] at hx
  simp only [decide_eq_true_eq]
  rcases hx with hx | hx
  · have h1 := List.mem_takeWhile_imp hx
    simp only [decide_eq_true_eq] at h1
    have h2 : (c + 1) % UINT64_SIZE ≤ c + 1 := Nat.mod_le _ _
    omega
  · rw [hes] at hx
    have := sorted_le_last es hsorted c x hx
    omega

/-- A scan that follows another one on the same table finds nothing to visit
and changes nothing, provided the first one ended below the largest `uint64_t`. -/
theorem rescan_idle (X : Externals) (dir : String) (ws ws2 : WSConnection)
    (table : List Event) (s : State) (hdir : dir ≠ "down")
    (hsorted : (cursorRange table false (some ((s.currEventId + 1) % UINT64_SIZE))).Pairwise
      fun a b => a.primaryKeyId < b.primaryKeyId)
    (hgt : ∀ e ∈ cursorRange table false (some ((s.currEventId + 1) % UINT64_SIZE)),
      s.currEventId < e.primaryKeyId)
    (hfit : (onTrigger X dir ws table s).2.currEventId + 1 < UINT64_SIZE) :
    cursorRange table false
        (some (((onTrigger X dir ws table s).2.currEventId + 1) % UINT64_SIZE)) = [] ∧
    onTrigger X dir ws2 table (onTrigger X dir ws table s).2 =
      (.ok (), (onTrigger X dir ws table s).2) := by
  have hcur : (onTrigger X dir ws table s).2.currEventId =
      ((cursorRange table false (some ((s.currEventId + 1) % UINT64_SIZE))).getLast?.map
        Event.primaryKeyId).getD s.currEventId := by
    rw [onTrigger_eq X dir ws table s hdir]
    exact scan_currEventId X ws _ s
  have hempty : cursorRange table false
      (some (((onTrigger X dir ws table s).2.currEventId + 1) % UINT64_SIZE)) = [] := by
    rw [hcur] at hfit ⊢
    exact range_after_scan table s.currEventId hsorted hgt hfit
  refine ⟨hempty, ?_⟩
  rw [onTrigger_eq X dir ws2 table _ hdir, hempty]
  rfl

/-- Dropping a prefix all of whose elements satisfy the test. -/
theorem dropWhile_append_of_all {α : Type} (p : α → Bool) (l r : List α)
    (h : ∀ x ∈ l, p x = true) : (l ++ r).dropWhile p = r.dropWhile p := by
  induction l with
  | nil => rfl
  | cons a t ih =>
    rw [List.cons_append, List.dropWhile_cons, h a (List.mem_cons_self a t)]
    exact ih fun x hx => h x (List.mem_cons_of_mem a hx)

/-- What `onMessage` does with a well-formed `EVENT` frame while downloading. -/
theorem onMessage_event (X : Externals) (dir : String) (ws : WSConnection) (msg : String)
    (s : State) (sub : Json) (members : List (String × Json)) (rest : List Json)
    (hex id : String)
    (hdir : dir = "down" ∨ dir = "both")
    (hparse : X.from_string msg =
      .ok (.array (.string "EVENT" :: sub :: .object members :: rest)))
    (hid : members.lookup "id" = some (.string hex))
    (hhex : X.from_hex hex = .ok id) :
    onMessage X dir ws msg s =
      (.ok (), { s with
        downloadedIds := insert id s.downloadedIds
        log := s.log ++ [⟨.info, "Got event with ID: " ++ hex, none⟩]
        inbox := s.inbox ++ [⟨.object members, .Stream, ws.url⟩] }) := by
  have hlen : ¬ (rest.length + 1 + 1 + 1 < 2) := by omega
  have hlen3 : ¬ (rest.length + 1 + 1 + 1 < 3) := by omega
  rcases hdir with rfl | rfl <;>
  simp [hlen, hlen3, onMessage, hparse, bind, andThen, lift, raise, Json.is_array,
      Json.get_array, vector_at, pure, ret, Json.eq_str, logLine, update, Json.at_index,
      Json.at_key, hid, Json.get_string, hhex]

/-! ## Interleaved scans -/

/-- A step of a running scan is one visit. -/
theorem stepScan_running (X : Externals) (dir : String) (table : List Event)
    (ws : WSConnection) (ev : Event) (rest : List Event) (s : State) :
    stepScan X dir table (.running ws (ev :: rest)) s =
      (.running ws rest, scanStep X ws s ev) := by
  simp [stepScan, scanVisit_eq]

/-- A step of a requested scan, outside direction `down`, places the cursor. -/
theorem stepScan_requested (X : Externals) (dir : String) (table : List Event)
    (ws : WSConnection) (s : State) (hdir : dir ≠ "down") :
    stepScan X dir table (.requested ws) s =
      (.running ws (cursorRange table false (some ((s.currEventId + 1) % UINT64_SIZE))), s) := by
  simp [stepScan, hdir]

/-- A step either falls outside the list of scans and changes nothing, or
replaces one scan by its successor. -/
theorem stepAt_split (X : Externals) (dir : String) (table : List Event) (i : Nat)
    (scans : List Scan) (s : State) :
    stepAt X dir table i scans s = (scans, s) ∨
    ∃ l1 sc l2, scans = l1 ++ sc :: l2 ∧
      stepAt X dir table i scans s =
        (l1 ++ (stepScan X dir table sc s).1 :: l2, (stepScan X dir table sc s).2) := by
  induction scans generalizing i with
  | nil => left; cases i <;> rfl
  | cons sc rest ih =>
    cases i with
    | zero => right; exact ⟨[], sc, rest, rfl, rfl⟩
    | succ j =>
      rcases ih j with h | ⟨l1, sc2, l2, hl, h⟩
      · left; simp [stepAt, h]
      · right
        refine ⟨sc :: l1, sc2, l2, by simp [hl], ?_⟩
        simp [stepAt, h]

/-- Running one scan alone, step after step, is `onTrigger`. -/
theorem runSchedule_alone (X : Externals) (dir : String) (table : List Event)
    (ws : WSConnection) (s : State) :
    ∃ n, runSchedule X dir table (List.replicate n 0) ([.requested ws], s) =
      ([.finished ws], (onTrigger X dir ws table s).2) := by
  by_cases hdir : dir = "down"
  · refine ⟨1, ?_⟩
    subst hdir
    simp [runSchedule, stepAt, stepScan, onTrigger, pure, ret]
  · have loop : ∀ (es : List Event) (t : State),
        runSchedule X dir table (List.replicate (es.length + 1) 0) ([.running ws es], t) =
          ([.finished ws], es.foldl (scanStep X ws) t) := by
      intro es
      induction es with
      | nil => intro t; simp [runSchedule, stepAt, stepScan]
      | cons ev rest ih =>
        intro t
        rw [List.length_cons, List.replicate_succ, runSchedule]
        simp only [stepAt, stepScan_running]
        exact ih _
    refine ⟨(cursorRange table false (some ((s.currEventId + 1) % UINT64_SIZE))).length + 2, ?_⟩
    rw [List.replicate_succ, runSchedule]
    simp only [stepAt, stepScan_requested X dir table ws s hdir]
    rw [loop, onTrigger_eq X dir ws table s hdir]

/-- Replacing a scan by another one of the same connection, state and visits
unchanged, keeps the invariant when the new scan is in a permitted place. -/
theorem SingleRecordInv.replace {X : Externals} {e : Event} {conns : List WSConnection}
    {s0 st : State} {l1 l2 : List Scan} {sc : Scan} {visited : List WSConnection}
    (h : SingleRecordInv X e conns s0 (l1 ++ sc :: l2) st visited) (sc2 : Scan)
    (hws : sc2.ws = sc.ws)
    (hform : sc2 = .requested sc2.ws ∨ sc2 = .running sc2.ws [e] ∨
      sc2 = .running sc2.ws [] ∨ sc2 = .finished sc2.ws)
    (hdone : visited ≠ [] → sc2 = .running sc2.ws [] ∨ sc2 = .finished sc2.ws)
    (hphase : visited = [] → sc2 = .requested sc2.ws ∨ sc2 = .running sc2.ws [e]) :
    SingleRecordInv X e conns s0 (l1 ++ sc2 :: l2) st visited where
  conns_eq := by
    have := h.conns_eq
    simp only [List.map_append, List.map_cons] at this ⊢
    rw [hws]; exact this
  forms := by
    intro x hx
    rcases List.mem_append.1 hx with hx | hx
    · exact h.forms x (List.mem_append_left _ hx)
    · rcases List.mem_cons.1 hx with rfl | hx
      · exact hform
      · exact h.forms x (List.mem_append_right _ (List.mem_cons_of_mem _ hx))
  nodup := h.nodup
  sub := h.sub
  done := by
    intro x hx hv
    rcases List.mem_append.1 hx with hx | hx
    · exact h.done x (List.mem_append_left _ hx) hv
    · rcases List.mem_cons.1 hx with rfl | hx
      · exact hdone (by intro hnil; rw [hnil] at hv; simp at hv)
      · exact h.done x (List.mem_append_right _ (List.mem_cons_of_mem _ hx)) hv
  sent := h.sent
  inbox := h.inbox
  log := h.log
  phase := by
    rcases h.phase with ⟨hv, hc, hd, hall⟩ | hB
    · left
      refine ⟨hv, hc, hd, ?_⟩
      intro x hx
      rcases List.mem_append.1 hx with hx | hx
      · exact hall x (List.mem_append_left _ hx)
      · rcases List.mem_cons.1 hx with rfl | hx
        · exact hphase hv
        · exact hall x (List.mem_append_right _ (List.mem_cons_of_mem _ hx))
    · right; exact hB

/-- A visit of the record by a scan that had not visited it keeps the
invariant, with the connection added to the visits. -/
theorem SingleRecordInv.visit {X : Externals} {e : Event} {conns : List WSConnection}
    {s0 st : State} {l1 l2 : List Scan} {w : WSConnection} {visited : List WSConnection}
    (hslots : (conns.map WSConnection.slot).Nodup)
    (h : SingleRecordInv X e conns s0 (l1 ++ Scan.running w [e] :: l2) st visited) :
    SingleRecordInv X e conns s0 (l1 ++ Scan.running w [] :: l2) (scanStep X w st e)
      (visited ++ [w]) := by
  have hfresh : w.slot ∉ visited.map WSConnection.slot := by
    intro hv
    have := h.done (Scan.running w [e]) (by simp) (by simpa [Scan.ws] using hv)
    simp [Scan.ws] at this
  have hother : ∀ x, x ∈ l1 ∨ x ∈ l2 → x.ws.slot ≠ w.slot := by
    have hnd : (((l1 ++ Scan.running w [e] :: l2).map Scan.ws).map WSConnection.slot).Nodup := by
      rw [h.conns_eq]; exact hslots
    simp only [List.map_append, List.map_cons, Scan.ws] at hnd
    have hnot := (List.nodup_cons.1 (List.nodup_middle.1 hnd)).1
    intro x hx heq
    apply hnot
    rw [← heq, List.mem_append]
    rcases hx with hx | hx
    · left; exact List.mem_map_of_mem _ (List.mem_map_of_mem _ hx)
    · right; exact List.mem_map_of_mem _ (List.mem_map_of_mem _ hx)
  have hidB : visited ≠ [] → e.id ∉ st.downloadedIds := by
    intro hv
    rcases h.phase with ⟨hnil, _⟩ | ⟨_, _, hd⟩
    · exact absurd hnil hv
    · rw [hd]; simp
  refine
    { conns_eq := ?_, forms := ?_, nodup := ?_, sub := ?_, done := ?_, sent := ?_,
      inbox := ?_, log := ?_, phase := ?_ }
  · have := h.conns_eq
    simpa [Scan.ws] using this
  · intro x hx
    rcases List.mem_append.1 hx with hx | hx
    · exact h.forms x (List.mem_append_left _ hx)
    · rcases List.mem_cons.1 hx with rfl | hx
      · simp [Scan.ws]
      · exact h.forms x (List.mem_append_right _ (List.mem_cons_of_mem _ hx))
  · rw [List.map_append, List.map_singleton, List.nodup_append]
    refine ⟨h.nodup, List.nodup_singleton _, ?_⟩
    intro a ha hb
    rw [List.mem_singleton] at hb
    exact hfresh (hb ▸ ha)
  · intro x hx
    rcases List.mem_append.1 hx with hx | hx
    · exact h.sub x hx
    · rw [List.mem_singleton.1 hx, ← h.conns_eq]
      simp [Scan.ws]
  · intro x hx hv
    rw [List.map_append, List.map_singleton, List.mem_append, List.mem_singleton] at hv
    rcases List.mem_append.1 hx with hx | hx
    · rcases hv with hv | hv
      · exact h.done x (List.mem_append_left _ hx) hv
      · exact absurd hv (hother x (Or.inl hx))
    · rcases List.mem_cons.1 hx with rfl | hx
      · simp [Scan.ws]
      · rcases hv with hv | hv
        · exact h.done x (List.mem_append_right _ (List.mem_cons_of_mem _ hx)) hv
        · exact absurd hv (hother x (Or.inr hx))
  · rcases h.phase with ⟨hnil, _, hd, _⟩ | ⟨hv, _, hd⟩
    · subst hnil
      have hs := h.sent
      by_cases hid : e.id ∈ s0.downloadedIds
      · have hid2 : e.id ∈ st.downloadedIds := by rw [hd]; exact hid
        simp [scanStep, hid2, hid, hs]
      · have hid2 : e.id ∉ st.downloadedIds := by rw [hd]; exact hid
        simp [scanStep, hid2, hid, hs]
    · have hid2 := hidB hv
      have hs := h.sent
      by_cases hid : e.id ∈ s0.downloadedIds
      · simp only [hid, if_true] at hs ⊢
        rw [List.tail_append_of_ne_nil hv]
        simp [scanStep, hid2, hs]
      · simp only [hid, if_false] at hs ⊢
        simp [scanStep, hid2, hs]
  · have := h.inbox
    unfold scanStep; split <;> simpa using this
  · have := h.log
    unfold scanStep; split <;> simpa using this
  · right
    refine ⟨by simp, ?_, ?_⟩
    · unfold scanStep; split <;> rfl
    · rcases h.phase with ⟨_, _, hd, _⟩ | ⟨hv, _, hd⟩
      · by_cases hid2 : e.id ∈ st.downloadedIds
        · rw [← hd]; simp [scanStep, hid2]
        · have hid : e.id ∉ s0.downloadedIds := by rw [← hd]; exact hid2
          rw [Finset.erase_eq_of_not_mem hid, ← hd]; simp [scanStep, hid2]
      · have hid2 := hidB hv
        rw [← hd]; simp [scanStep, hid2]

/-- Every step of every scan keeps the invariant. -/
theorem SingleRecordInv.step {X : Externals} {dir : String} {table : List Event}
    {e : Event} {conns : List WSConnection} {s0 st : State} {scans : List Scan}
    {visited : List WSConnection} (i : Nat)
    (hdir : dir ≠ "down")
    (hslots : (conns.map WSConnection.slot).Nodup)
    (hr1 : cursorRange table false (some ((s0.currEventId + 1) % UINT64_SIZE)) = [e])
    (hr2 : cursorRange table false (some ((e.primaryKeyId + 1) % UINT64_SIZE)) = [])
    (h : SingleRecordInv X e conns s0 scans st visited) :
    ∃ visited2, SingleRecordInv X e conns s0 (stepAt X dir table i scans st).1
      (stepAt X dir table i scans st).2 visited2 := by
  rcases stepAt_split X dir table i scans st with heq | ⟨l1, sc, l2, hl, heq⟩
  · rw [heq]; exact ⟨visited, h⟩
  · rw [heq]
    subst hl
    have hform := h.forms sc (by simp)
    cases sc with
    | requested w =>
      rw [stepScan_requested X dir table w st hdir]
      refine ⟨visited, ?_⟩
      rcases h.phase with ⟨hnil, hc, _, _⟩ | ⟨hv, hc, _⟩
      · rw [hc, hr1]
        exact h.replace (Scan.running w [e]) rfl (by simp [Scan.ws])
          (fun hv => absurd hnil hv) (fun _ => by simp [Scan.ws])
      · rw [hc, hr2]
        exact h.replace (Scan.running w []) rfl (by simp [Scan.ws])
          (fun _ => by simp [Scan.ws]) (fun hnil => absurd hnil hv)
    | running w pending =>
      have hp : pending = [e] ∨ pending = [] := by
        simpa [Scan.ws] using hform
      rcases hp with rfl | rfl
      · rw [stepScan_running]
        exact ⟨visited ++ [w], h.visit hslots⟩
      · refine ⟨visited, ?_⟩
        have hB : visited ≠ [] := by
          intro hnil
          rcases h.phase with ⟨_, _, _, hall⟩ | ⟨hv, _⟩
          · have := hall (Scan.running w []) (by simp)
            simp [Scan.ws] at this
          · exact hv hnil
        exact h.replace (Scan.finished w) rfl (by simp [Scan.ws])
          (fun _ => by simp [Scan.ws]) (fun hnil => absurd hnil hB)
    | finished w =>
      exact ⟨visited, by simpa [stepScan] using h⟩

/-- Every schedule keeps the invariant. -/
theorem SingleRecordInv.run {X : Externals} {dir : String} {table : List Event}
    {e : Event} {conns : List WSConnection} {s0 : State}
    (hdir : dir ≠ "down")
    (hslots : (conns.map WSConnection.slot).Nodup)
    (hr1 : cursorRange table false (some ((s0.currEventId + 1) % UINT64_SIZE)) = [e])
    (hr2 : cursorRange table false (some ((e.primaryKeyId + 1) % UINT64_SIZE)) = [])
    (schedule : List Nat) (cfg : List Scan × State) (visited : List WSConnection)
    (h : SingleRecordInv X e conns s0 cfg.1 cfg.2 visited) :
    ∃ visited2, SingleRecordInv X e conns s0 (runSchedule X dir table schedule cfg).1
      (runSchedule X dir table schedule cfg).2 visited2 := by
  induction schedule generalizing cfg visited with
  | nil => exact ⟨visited, h⟩
  | cons i rest ih =>
    obtain ⟨v2, h2⟩ := h.step i hdir hslots hr1 hr2
    exact ih _ v2 h2

/-- Before any step, with every scan requested, the invariant holds. -/
theorem SingleRecordInv.start (X : Externals) (e : Event) (conns : List WSConnection)
    (s0 : State) : SingleRecordInv X e conns s0 (conns.map Scan.requested) s0 [] where
  conns_eq := by simp [Function.comp_def, Scan.ws]
  forms := by
    intro sc hsc
    obtain ⟨w, _, rfl⟩ := List.mem_map.1 hsc
    simp [Scan.ws]
  nodup := by simp
  sub := by simp
  done := by simp
  sent := by simp
  inbox := rfl
  log := rfl
  phase := by
    left
    refine ⟨rfl, rfl, rfl, ?_⟩
    intro sc hsc
    obtain ⟨w, _, rfl⟩ := List.mem_map.1 hsc
    simp [Scan.ws]

/-- Once every scan has returned, the record has been visited at least once:
for all interleavings of the scans of one or more connections over a single
new record `e`, the cursor ends on the key of `e`, the identifier of `e` is out
of the Dedup Set, and the frames written are the frames of `e` on the
connections that visited it, the first visitor left out when the identifier
was in the Dedup Set. -/
theorem single_record_outcome (X : Externals) (dir : String) (table : List Event)
    (e : Event) (conns : List WSConnection) (s0 : State) (schedule : List Nat)
    (hdir : dir ≠ "down")
    (hconns : conns ≠ [])
    (hslots : (conns.map WSConnection.slot).Nodup)
    (hr1 : cursorRange table false (some ((s0.currEventId + 1) % UINT64_SIZE)) = [e])
    (hr2 : cursorRange table false (some ((e.primaryKeyId + 1) % UINT64_SIZE)) = [])
    (hdone : (runSchedule X dir table schedule (conns.map Scan.requested, s0)).1 =
      conns.map Scan.finished) :
    ∃ visited : List WSConnection,
      visited ≠ [] ∧ (visited.map WSConnection.slot).Nodup ∧ (∀ w ∈ visited, w ∈ conns) ∧
      runSchedule X dir table schedule (conns.map Scan.requested, s0) =
        (conns.map Scan.finished,
          { s0 with
            currEventId := e.primaryKeyId
            downloadedIds := s0.downloadedIds.erase e.id
            sent := s0.sent ++
              (if e.id ∈ s0.downloadedIds then visited.tail else visited).map
                (fun w => (w.slot, "[\"EVENT\"," ++ X.getEventJson e.primaryKeyId ++ "]")) }) := by
  obtain ⟨visited, h⟩ := SingleRecordInv.run hdir hslots hr1 hr2 schedule
    (conns.map Scan.requested, s0) [] (SingleRecordInv.start X e conns s0)
  have hB : visited ≠ [] ∧
      (runSchedule X dir table schedule (conns.map Scan.requested, s0)).2.currEventId =
        e.primaryKeyId ∧
      (runSchedule X dir table schedule (conns.map Scan.requested, s0)).2.downloadedIds =
        s0.downloadedIds.erase e.id := by
    rcases h.phase with ⟨_, _, _, hall⟩ | hB
    · exfalso
      obtain ⟨w, rest, rfl⟩ := List.exists_cons_of_ne_nil hconns
      have := hall (Scan.finished w) (by rw [hdone]; simp)
      simp [Scan.ws] at this
    · exact hB
  refine ⟨visited, hB.1, h.nodup, h.sub, ?_⟩
  have hs := h.sent
  have hi := h.inbox
  have hl := h.log
  generalize runSchedule X dir table schedule (conns.map Scan.requested, s0) = r at *
  obtain ⟨scans, st⟩ := r
  obtain ⟨d, c, ib, sn, lg⟩ := st
  simp only at hdone hs hi hl hB
  obtain ⟨_, hc, hd⟩ := hB
  subst hdone hc hd hi hl hs
  rfl

/-! ## The claims -/

/-- Claim C1, amended.  With direction `up` or `both`, let `es` be the records
the store yields from the scan's starting point, in strictly increasing key
order and with pairwise distinct identifiers.  One `onTrigger` on a connection
returns normally and appends to the trace of sent frames exactly the frames
`["EVENT",` payload `]` of those records of `es` whose identifier is not in the
Dedup Set, in the order of `es`, all on that connection.  When the cursor is
below the largest `uint64_t`, so that `currEventId + 1` does not wrap, every
record visited has a key above the cursor. -/
theorem C1_scan_output (X : Externals) (dir : String) (ws : WSConnection)
    (table : List Event) (s : State) (es : List Event)
    (hdir : dir = "up" ∨ dir = "both")
    (hes : cursorRange table false (some ((s.currEventId + 1) % UINT64_SIZE)) = es)
    (hsorted : es.Pairwise fun a b => a.primaryKeyId < b.primaryKeyId)
    (hnodup : (es.map Event.id).Nodup) :
    (onTrigger X dir ws table s).1 = .ok () ∧
    (onTrigger X dir ws table s).2.sent =
      s.sent ++ (es.filter fun e => e.id ∉ s.downloadedIds).map
        (fun e => (ws.slot, "[\"EVENT\"," ++ X.getEventJson e.primaryKeyId ++ "]")) ∧
    (s.currEventId + 1 < UINT64_SIZE → ∀ e ∈ es, s.currEventId < e.primaryKeyId) := by
  rw [onTrigger_eq X dir ws table s (up_or_both_ne_down dir hdir), hes]
  refine ⟨rfl, scan_sent X ws es s hnodup, ?_⟩
  intro hfit e he
  rw [Nat.mod_eq_of_lt hfit] at hes
  cases es with
  | nil => simp at he
  | cons a r =>
    have ha : ¬ (a.primaryKeyId < s.currEventId + 1) := by
      have := List.head_dropWhile_not
        (fun ev : Event => decide (ev.primaryKeyId < s.currEventId + 1)) table
      simp only [cursorRange] at hes
      simp only [hes] at this
      simpa using this
    rcases List.mem_cons.1 he with rfl | hr
    · omega
    · have := (List.pairwise_cons.1 hsorted).1 e hr
      omega

/-- Instance of C1: from cursor 5, with the identifier of record 7 in the Dedup
Set, the scan sends the frames of records 6 and 8, in that order. -/
theorem C1_scan_output_witness :
    (onTrigger sampleExternals "up" relayP (fiveEvents ++ threeNew) markedState).1 = .ok () ∧
    (onTrigger sampleExternals "up" relayP (fiveEvents ++ threeNew) markedState).2.sent =
      [(0, "[\"EVENT\",\x7b\"lev\":6\x7d]"), (0, "[\"EVENT\",\x7b\"lev\":8\x7d]")] ∧
    threeNew.map Event.primaryKeyId = [6, 7, 8] :=
  have h := C1_scan_output sampleExternals "up" relayP (fiveEvents ++ threeNew) markedState
    threeNew (Or.inl rfl) (by decide) (by decide) (by decide)
  ⟨h.1, h.2.1, by decide⟩

/-- Counterexample to C1 as stated: with the cursor on the largest `uint64_t`,
`currEventId + 1` wraps to 0, the iteration yields the whole store (two records
in strictly increasing order with distinct identifiers), and both are sent
although neither key is above the cursor. -/
theorem C1_counterexample :
    (startState lastKeys).currEventId = 2 ^ 64 - 1 ∧
    cursorRange lastKeys false
      (some (((startState lastKeys).currEventId + 1) % UINT64_SIZE)) = lastKeys ∧
    lastKeys.map Event.primaryKeyId = [2 ^ 64 - 2, 2 ^ 64 - 1] ∧
    (lastKeys.map Event.id).Nodup ∧
    (onTrigger sampleExternals "up" relayP lastKeys (startState lastKeys)).2.sent =
      [(0, "[\"EVENT\",\x7b\"lev\":18446744073709551614\x7d]"),
       (0, "[\"EVENT\",\x7b\"lev\":18446744073709551615\x7d]")] := by
  decide

/-- Claim C2, amended.  With direction `up` or `both`, a store that held the
sequence ids 1 to 5 when the cursor was taken (so the cursor is 5), a new
record with sequence id 6 whose identifier is not in the Dedup Set, and one or
more connections (with distinct slots) whose `onTrigger` callbacks each run
once to completion, interleaved in any order: the frames written are the
`EVENT` envelope with the payload of sequence id 6, once on each connection of
a non-empty list `senders` of distinct connections, and nothing else; the
cursor is 6 afterwards and nothing else changes.  So at least one connection
sends the envelope and no connection sends more than one frame.  With a single
connection that connection sends it: the claim as stated. -/
theorem C2_upload_interleaved (X : Externals) (dir : String) (table0 : List Event)
    (e6 : Event) (s : State) (conns : List WSConnection) (schedule : List Nat)
    (hdir : dir = "up" ∨ dir = "both")
    (hkeys : table0.map Event.primaryKeyId = [1, 2, 3, 4, 5])
    (hcur : s.currEventId = getMostRecentLevId table0)
    (h6 : e6.primaryKeyId = 6)
    (hD : e6.id ∉ s.downloadedIds)
    (hconns : conns ≠ [])
    (hslots : (conns.map WSConnection.slot).Nodup)
    (hdone : (runSchedule X dir (table0 ++ [e6]) schedule (conns.map Scan.requested, s)).1 =
      conns.map Scan.finished) :
    s.currEventId = 5 ∧
    ∃ senders : List WSConnection,
      senders ≠ [] ∧ (senders.map WSConnection.slot).Nodup ∧ (∀ w ∈ senders, w ∈ conns) ∧
      (runSchedule X dir (table0 ++ [e6]) schedule (conns.map Scan.requested, s)).2 =
        { s with
          currEventId := 6
          sent := s.sent ++ senders.map
            (fun w => (w.slot, "[\"EVENT\"," ++ X.getEventJson 6 ++ "]")) } ∧
      (∀ w : WSConnection, conns = [w] → senders = [w]) := by
  have hne := up_or_both_ne_down dir hdir
  have h5 : s.currEventId = 5 := by
    have h : (table0.map Event.primaryKeyId).getLast? = some 5 := by rw [hkeys]; rfl
    rw [List.getLast?_map] at h
    rw [hcur, getMostRecentLevId]
    cases hl : table0.getLast? with
    | none => rw [hl] at h; simp at h
    | some ev => rw [hl] at h; simpa using h
  have hlow : ∀ x ∈ table0, x.primaryKeyId < 6 := by
    intro x hx
    have : x.primaryKeyId ∈ table0.map Event.primaryKeyId := List.mem_map_of_mem _ hx
    rw [hkeys] at this
    simp at this
    omega
  have hr1 : cursorRange (table0 ++ [e6]) false
      (some ((s.currEventId + 1) % UINT64_SIZE)) = [e6] := by
    have h64 : (5 + 1) % UINT64_SIZE = 6 := by decide
    rw [h5, h64]
    simp only [cursorRange]
    rw [dropWhile_append_of_all _ _ _ (by simpa using hlow)]
    simp [List.dropWhile, h6]
  have hr2 : cursorRange (table0 ++ [e6]) false
      (some ((e6.primaryKeyId + 1) % UINT64_SIZE)) = [] := by
    have h64 : (6 + 1) % UINT64_SIZE = 7 := by decide
    rw [h6, h64]
    simp only [cursorRange]
    rw [List.dropWhile_eq_nil_iff]
    intro x hx
    rcases List.mem_append.1 hx with hx | hx
    · have := hlow x hx
      simp only [decide_eq_true_eq]; omega
    · rw [List.mem_singleton.1 hx]
      simp only [decide_eq_true_eq]; omega
  refine ⟨h5, ?_⟩
  obtain ⟨visited, hv, hnd, hsub, hrun⟩ := single_record_outcome X dir (table0 ++ [e6]) e6
    conns s schedule hne hconns hslots hr1 hr2 hdone
  refine ⟨visited, hv, hnd, hsub, ?_, ?_⟩
  · rw [hrun]
    simp [hD, h6, Finset.erase_eq_of_not_mem hD]
  · intro w hw
    subst hw
    cases visited with
    | nil => exact absurd rfl hv
    | cons a t =>
      have ha : a = w := by simpa using hsub a (List.mem_cons_self a t)
      subst ha
      cases t with
      | nil => rfl
      | cons b t2 =>
        have hb : b = a := by simpa using hsub b (by simp)
        subst hb
        simp at hnd

/-- Instance of C2 with two connections whose scans overlap (both read the
cursor before either visits the record): both send the envelope. -/
theorem C2_upload_interleaved_witness :
    (startState fiveEvents).currEventId = 5 ∧
    ∃ senders : List WSConnection,
      senders ≠ [] ∧
      (runSchedule sampleExternals "both" (fiveEvents ++ [sixthEvent]) [0, 1, 0, 1, 0, 1]
          ([relayP, relayQ].map Scan.requested, startState fiveEvents)).2 =
        { startState fiveEvents with
          currEventId := 6
          sent := (startState fiveEvents).sent ++ senders.map
            (fun w => (w.slot, "[\"EVENT\"," ++ sampleExternals.getEventJson 6 ++ "]")) } :=
  have h := C2_upload_interleaved sampleExternals "both" fiveEvents sixthEvent
    (startState fiveEvents) [relayP, relayQ] [0, 1, 0, 1, 0, 1] (Or.inr rfl) (by decide)
    (by decide) (by decide) (by decide) (by decide) (by decide) (by decide)
  ⟨h.1, h.2.elim fun senders hs => ⟨senders, hs.1, hs.2.2.2.1⟩⟩

/-- Counterexample to C2 as stated: with two connections, sequence ids 1 to 5 in
the store at start and sequence id 6 written afterwards, let the scan of the
first connection run to completion before the scan of the second one begins.
Both scans have then run once; the first connection has sent the envelope, the
cursor is 6, and the second connection has sent nothing. -/
theorem C2_counterexample :
    (runSchedule sampleExternals "up" (fiveEvents ++ [sixthEvent]) [0, 0, 0, 1, 1]
      ([relayP, relayQ].map Scan.requested, startState fiveEvents)).1 =
        [relayP, relayQ].map Scan.finished ∧
    framesOn relayP.slot (runSchedule sampleExternals "up" (fiveEvents ++ [sixthEvent])
      [0, 0, 0, 1, 1] ([relayP, relayQ].map Scan.requested, startState fiveEvents)).2 =
        ["[\"EVENT\",\x7b\"lev\":6\x7d]"] ∧
    framesOn relayQ.slot (runSchedule sampleExternals "up" (fiveEvents ++ [sixthEvent])
      [0, 0, 0, 1, 1] ([relayP, relayQ].map Scan.requested, startState fiveEvents)).2 = [] ∧
    (runSchedule sampleExternals "up" (fiveEvents ++ [sixthEvent])
      [0, 0, 0, 1, 1] ([relayP, relayQ].map Scan.requested, startState fiveEvents)).2.currEventId
        = 6 := by
  decide

/-- Claim C4.  With direction `down` or `both`, for a message that parses to an
array `["EVENT", sub, ev, ...]` whose third element is an object with a string
member `id` that `from_hex` decodes, `onMessage` returns normally; afterwards
the Dedup Set is the previous one with the decoded identifier inserted, the
cursor is unchanged, exactly one item, `(ev, Stream, url of the connection)`,
has been appended to the writer inbox, and no frame has been sent. -/
theorem C4_inbound_event (X : Externals) (dir : String) (ws : WSConnection) (msg : String)
    (s : State) (sub : Json) (members : List (String × Json)) (rest : List Json)
    (hex id : String)
    (hdir : dir = "down" ∨ dir = "both")
    (hparse : X.from_string msg =
      .ok (.array (.string "EVENT" :: sub :: .object members :: rest)))
    (hid : members.lookup "id" = some (.string hex))
    (hhex : X.from_hex hex = .ok id) :
    (onMessage X dir ws msg s).1 = .ok () ∧
    (onMessage X dir ws msg s).2.downloadedIds = insert id s.downloadedIds ∧
    id ∈ (onMessage X dir ws msg s).2.downloadedIds ∧
    (onMessage X dir ws msg s).2.currEventId = s.currEventId ∧
    (onMessage X dir ws msg s).2.inbox =
      s.inbox ++ [⟨.object members, .Stream, ws.url⟩] ∧
    (onMessage X dir ws msg s).2.sent = s.sent := by
  rw [onMessage_event X dir ws msg s sub members rest hex id hdir hparse hid hhex]
  exact ⟨rfl, rfl, Finset.mem_insert_self _ _, rfl, rfl, rfl⟩

/-- Instance of C4: the frame `eventText` received on the second connection. -/
theorem C4_inbound_event_witness :
    (onMessage sampleExternals "down" relayQ eventText markedState).1 = .ok () ∧
    (onMessage sampleExternals "down" relayQ eventText markedState).2.downloadedIds =
      insert "\xab" markedState.downloadedIds ∧
    (onMessage sampleExternals "down" relayQ eventText markedState).2.inbox =
      markedState.inbox ++ [⟨.object [("id", .string "ab")], .Stream, relayQ.url⟩] :=
  have h := C4_inbound_event sampleExternals "down" relayQ eventText markedState
    (.string "sub") [("id", .string "ab")] [] "ab" "\xab" (Or.inl rfl) rfl rfl rfl
  ⟨h.1, h.2.1, h.2.2.2.2.1⟩

/-- Claim C5, amended.  In every direction, for a message that parses to an
array of at least three elements whose first element is `"OK"` and whose third
element is a boolean, `onMessage` returns normally, submits nothing to the
writer inbox, sends nothing and leaves the Dedup Set and the cursor unchanged;
the only effect is one warning in the log when the flag is false. -/
theorem C5_ok_frame (X : Externals) (dir : String) (ws : WSConnection) (msg : String)
    (s : State) (second : Json) (flag : Bool) (rest : List Json)
    (hparse : X.from_string msg =
      .ok (.array (.string "OK" :: second :: .boolean flag :: rest))) :
    onMessage X dir ws msg s =
      (.ok (), if flag then s else
        { s with log := s.log ++ [⟨.warning, "Event not written: ",
            some (.array (.string "OK" :: second :: .boolean flag :: rest))⟩] }) := by
  have hlen : ¬ (rest.length + 1 + 1 + 1 < 2) := by omega
  cases flag <;>
  simp [hlen, onMessage, hparse, bind, andThen, lift, raise, Json.is_array, Json.get_array,
      vector_at, pure, ret, Json.eq_str, Json.get_boolean, logLine, update]

/-- Instance of C5: a rejection `["OK","ab",false,"blocked"]` only adds a
warning to the log. -/
theorem C5_ok_frame_witness :
    onMessage sampleExternals "up" relayP "[\"OK\",\"ab\",false,\"blocked\"]" markedState =
      (.ok (), if false then markedState else
        { markedState with log := markedState.log ++ [⟨.warning, "Event not written: ",
            some (.array (.string "OK" :: .string "ab" :: .boolean false ::
              [.string "blocked"]))⟩] }) :=
  C5_ok_frame sampleExternals "up" relayP "[\"OK\",\"ab\",false,\"blocked\"]" markedState
    (.string "ab") false [.string "blocked"] rfl

/-- Counterexample to C5 as stated: the array `["OK","ab"]` has two elements and
first element `"OK"`, and `onMessage` throws on it (the access to the element
with index 2 is out of range). -/
theorem C5_counterexample :
    sampleExternals.from_string "[\"OK\",\"ab\"]" =
      .ok (.array [.string "OK", .string "ab"]) ∧
    onMessage sampleExternals "down" relayP "[\"OK\",\"ab\"]" markedState =
      (.error .out_of_range, markedState) :=
  ⟨rfl, rfl⟩

/-- Claim C6.  In every direction, for a message that parses to a value that is
not an array, or to an array of fewer than two elements, or to an array of at
least two elements whose first element is none of `"EOSE"`, `"NOTICE"`, `"OK"`,
`"EVENT"`, `onMessage` throws, and the state at that point is the state it
started from: Dedup Set and cursor unchanged, nothing submitted to the writer
inbox, nothing sent on any connection. -/
theorem C6_malformed_envelope (X : Externals) (dir : String) (ws : WSConnection)
    (msg : String) (s : State) (origJson : Json)
    (hparse : X.from_string msg = .ok origJson)
    (hbad : origJson.is_array = false ∨
      (∃ elems, origJson = .array elems ∧ elems.length < 2) ∨
      (∃ first second rest, origJson = .array (first :: second :: rest) ∧
        first ≠ .string "EOSE" ∧ first ≠ .string "NOTICE" ∧
        first ≠ .string "OK" ∧ first ≠ .string "EVENT")) :
    ∃ e, onMessage X dir ws msg s = (.error e, s) := by
  rcases hbad with h | ⟨elems, rfl, h⟩ | ⟨first, second, rest, rfl, h1, h2, h3, h4⟩
  · exact ⟨.herr "unexpected message", by
      simp [onMessage, hparse, h, bind, andThen, lift, raise]⟩
  · exact ⟨.herr "array too short", by
      simp [onMessage, hparse, h, bind, andThen, lift, raise, Json.is_array, Json.get_array]⟩
  · refine ⟨.herr "unexpected first element", ?_⟩
    have e1 : first.eq_str "EOSE" = false := by
      cases first <;> simp_all [Json.eq_str]
    have e2 : first.eq_str "NOTICE" = false := by
      cases first <;> simp_all [Json.eq_str]
    have e3 : first.eq_str "OK" = false := by
      cases first <;> simp_all [Json.eq_str]
    have e4 : first.eq_str "EVENT" = false := by
      cases first <;> simp_all [Json.eq_str]
    have hlen : ¬ (rest.length + 1 + 1 < 2) := by omega
    simp [onMessage, hparse, bind, andThen, lift, raise, Json.is_array, Json.get_array,
      vector_at, e1, e2, e3, e4, pure, ret, hlen]

/-- Instance of C6: the message `["BADTAG",1]`. -/
theorem C6_malformed_envelope_witness :
    ∃ e, onMessage sampleExternals "both" relayP "[\"BADTAG\",1]" markedState =
      (.error e, markedState) :=
  C6_malformed_envelope sampleExternals "both" relayP "[\"BADTAG\",1]" markedState
    (.array [.string "BADTAG", .unsigned 1]) rfl
    (Or.inr (Or.inr ⟨.string "BADTAG", .unsigned 1, [], rfl,
      by simp, by simp, by simp, by simp⟩))

/-- Claim C7, amended.  With direction `up` or `both`, let `es` be the records
the store yields from the scan's starting point, in strictly increasing key
order and all with a key above the cursor.  One `onTrigger` returns normally and
leaves the cursor on the key of the last record of `es`, suppressed or not, and
where it was when `es` is empty; so the cursor does not decrease.  When the
cursor it leaves is below the largest `uint64_t`, a second `onTrigger` on the
same store, on any connection, finds nothing to visit and changes nothing:
no frame, same cursor, same Dedup Set. -/
theorem C7_cursor_after_scan (X : Externals) (dir : String) (ws ws2 : WSConnection)
    (table : List Event) (s : State) (es : List Event)
    (hdir : dir = "up" ∨ dir = "both")
    (hes : cursorRange table false (some ((s.currEventId + 1) % UINT64_SIZE)) = es)
    (hsorted : es.Pairwise fun a b => a.primaryKeyId < b.primaryKeyId)
    (hgt : ∀ e ∈ es, s.currEventId < e.primaryKeyId) :
    (onTrigger X dir ws table s).1 = .ok () ∧
    (onTrigger X dir ws table s).2.currEventId =
      (es.getLast?.map Event.primaryKeyId).getD s.currEventId ∧
    s.currEventId ≤ (onTrigger X dir ws table s).2.currEventId ∧
    ((onTrigger X dir ws table s).2.currEventId + 1 < UINT64_SIZE →
      cursorRange table false
        (some (((onTrigger X dir ws table s).2.currEventId + 1) % UINT64_SIZE)) = [] ∧
      onTrigger X dir ws2 table (onTrigger X dir ws table s).2 =
        (.ok (), (onTrigger X dir ws table s).2)) := by
  have hne := up_or_both_ne_down dir hdir
  have hcur : (onTrigger X dir ws table s).2.currEventId =
      (es.getLast?.map Event.primaryKeyId).getD s.currEventId := by
    rw [onTrigger_eq X dir ws table s hne, hes]
    exact scan_currEventId X ws es s
  refine ⟨by rw [onTrigger_eq X dir ws table s hne], hcur, ?_, ?_⟩
  · rw [hcur]; exact last_ge_cursor es _ hgt
  · intro hfit
    exact rescan_idle X dir ws ws2 table s hne (by rw [hes]; exact hsorted)
      (by rw [hes]; exact hgt) hfit

/-- Instance of C7: from cursor 5 the scan visits records 6, 7 (suppressed)
and 8, leaves the cursor on 8, and a second trigger changes nothing. -/
theorem C7_cursor_after_scan_witness :
    (onTrigger sampleExternals "both" relayP (fiveEvents ++ threeNew) markedState).2.currEventId
      = ((threeNew.getLast?.map Event.primaryKeyId).getD markedState.currEventId) ∧
    onTrigger sampleExternals "both" relayQ (fiveEvents ++ threeNew)
        (onTrigger sampleExternals "both" relayP (fiveEvents ++ threeNew) markedState).2 =
      (.ok (), (onTrigger sampleExternals "both" relayP (fiveEvents ++ threeNew) markedState).2) :=
  have h := C7_cursor_after_scan sampleExternals "both" relayP relayQ (fiveEvents ++ threeNew)
    markedState threeNew (Or.inr rfl) (by decide) (by decide) (by decide)
  ⟨h.2.1, (h.2.2.2 (by decide)).2⟩

/-- Counterexample to C7 as stated: the store holds the keys `2^64 - 2` and
`2^64 - 1` and the cursor is `2^64 - 2`.  The iteration from the cursor on yields
the one record with key `2^64 - 1`, above the cursor, and the scan leaves the
cursor on `2^64 - 1`.  A second trigger, with no write to the store in between,
starts from `currEventId + 1 = 0`: it visits both records and sends both. -/
theorem C7_counterexample :
    cursorRange lastKeys false (some ((2 ^ 64 - 2 + 1) % UINT64_SIZE)) =
      [⟨2 ^ 64 - 1, "\x02"⟩] ∧
    (onTrigger sampleExternals "up" relayP lastKeys ⟨∅, 2 ^ 64 - 2, [], [], []⟩).2.currEventId =
      2 ^ 64 - 1 ∧
    (onTrigger sampleExternals "up" relayP lastKeys ⟨∅, 2 ^ 64 - 2, [], [], []⟩).2.sent =
      [(0, "[\"EVENT\",\x7b\"lev\":18446744073709551615\x7d]")] ∧
    cursorRange lastKeys false (some ((2 ^ 64 - 1 + 1) % UINT64_SIZE)) = lastKeys ∧
    (onTrigger sampleExternals "up" relayP lastKeys
      (onTrigger sampleExternals "up" relayP lastKeys ⟨∅, 2 ^ 64 - 2, [], [], []⟩).2).2.sent =
      [(0, "[\"EVENT\",\x7b\"lev\":18446744073709551615\x7d]"),
       (0, "[\"EVENT\",\x7b\"lev\":18446744073709551614\x7d]"),
       (0, "[\"EVENT\",\x7b\"lev\":18446744073709551615\x7d]")] := by
  decide

/-- Claim C8.  With direction `up` or `both`, for every Dedup Set and every scan,
with `es` the records the scan visits: the Dedup Set after the scan is the one
before minus the identifiers of `es`.  So no identifier of a visited record is
left in the set, an identifier of no visited record is in the set afterwards
exactly when it was before, and a visit of a record whose identifier is absent
leaves the set as it is. -/
theorem C8_dedup_test_and_remove (X : Externals) (dir : String) (ws : WSConnection)
    (table : List Event) (s : State) (es : List Event)
    (hdir : dir = "up" ∨ dir = "both")
    (hes : cursorRange table false (some ((s.currEventId + 1) % UINT64_SIZE)) = es) :
    (onTrigger X dir ws table s).2.downloadedIds =
      s.downloadedIds \ (es.map Event.id).toFinset ∧
    (∀ e ∈ es, e.id ∉ (onTrigger X dir ws table s).2.downloadedIds) ∧
    (∀ i : String, i ∉ es.map Event.id →
      (i ∈ (onTrigger X dir ws table s).2.downloadedIds ↔ i ∈ s.downloadedIds)) ∧
    (∀ (ev : Event) (t : State), ev.id ∉ t.downloadedIds →
      (scanVisit X ws ev t).2.downloadedIds = t.downloadedIds) := by
  have hD : (onTrigger X dir ws table s).2.downloadedIds =
      s.downloadedIds \ (es.map Event.id).toFinset := by
    rw [onTrigger_eq X dir ws table s (up_or_both_ne_down dir hdir), hes]
    exact scan_downloadedIds X ws es s
  refine ⟨hD, ?_, ?_, ?_⟩
  · intro e he
    rw [hD]
    simp only [Finset.mem_sdiff, List.mem_toFinset, not_and, not_not]
    intro _
    exact List.mem_map_of_mem Event.id he
  · intro i hi
    rw [hD]
    simp only [Finset.mem_sdiff, List.mem_toFinset]
    tauto
  · intro ev t ht
    rw [scanVisit_eq]
    simp [scanStep, ht]

/-- Instance of C8: the scan from cursor 5 over records 6, 7 and 8 removes the
identifier of record 7 from the Dedup Set. -/
theorem C8_dedup_test_and_remove_witness :
    (onTrigger sampleExternals "up" relayP (fiveEvents ++ threeNew) markedState).2.downloadedIds =
      markedState.downloadedIds \ (threeNew.map Event.id).toFinset ∧
    (scanVisit sampleExternals relayP sixthEvent markedState).2.downloadedIds =
      markedState.downloadedIds :=
  have h := C8_dedup_test_and_remove sampleExternals "up" relayP (fiveEvents ++ threeNew)
    markedState threeNew (Or.inl rfl) (by decide)
  ⟨h.1, h.2.2.2 sixthEvent markedState (by decide)⟩

/-- Claim C9.  With direction `up`, `onConnect` sends no frame and changes
nothing; and for a message that parses to an array of at least two elements
whose first element is `"EVENT"`, whatever the other elements, `onMessage`
returns normally, submits nothing to the writer inbox, sends nothing and leaves
the Dedup Set and the cursor unchanged: its only effect is the warning
`Unexpected EVENT` in the log. -/
theorem C9_up_ignores_inbound_events (X : Externals) (ws : WSConnection) (msg : String)
    (s : State) (second : Json) (rest : List Json)
    (hparse : X.from_string msg = .ok (.array (.string "EVENT" :: second :: rest))) :
    onConnect X "up" ws s = (.ok (), s) ∧
    onMessage X "up" ws msg s =
      (.ok (), { s with log := s.log ++ [⟨.warning, "Unexpected EVENT", none⟩] }) := by
  constructor
  · simp [onConnect, pure, ret]
  · have hlen : ¬ (rest.length + 1 + 1 < 2) := by omega
    simp [onMessage, hparse, bind, andThen, lift, raise, Json.is_array, Json.get_array,
      vector_at, pure, ret, Json.eq_str, logLine, update, hlen]

/-- Instance of C9: the frame `eventText` received with direction `up`. -/
theorem C9_up_ignores_inbound_events_witness :
    onConnect sampleExternals "up" relayP markedState = (.ok (), markedState) ∧
    onMessage sampleExternals "up" relayP eventText markedState =
      (.ok (), { markedState with
        log := markedState.log ++ [⟨.warning, "Unexpected EVENT", none⟩] }) :=
  C9_up_ignores_inbound_events sampleExternals relayP eventText markedState
    (.string "sub") [.object [("id", .string "ab")]] rfl

/-- Claim C10.  With direction `down` or `both`, `onConnect` returns normally
and sends exactly one frame on its connection, the printed envelope
`["REQ","sub",{"limit":0}]`, and changes nothing else; and with direction
`down`, for every cursor, Dedup Set and store, `onTrigger` returns at once:
no frame, no record visited, cursor and Dedup Set unchanged. -/
theorem C10_down_connect_and_trigger (X : Externals) (dir : String) (ws : WSConnection)
    (s : State) (table : List Event)
    (hdir : dir = "down" ∨ dir = "both") :
    onConnect X dir ws s =
      (.ok (), { s with sent := s.sent ++ [(ws.slot, X.to_string
        (.array [.string "REQ", .string "sub", .object [("limit", .signed 0)]]))] }) ∧
    onTrigger X "down" ws table s = (.ok (), s) := by
  constructor
  · rcases hdir with rfl | rfl <;> simp [onConnect, send, update]
  · simp [onTrigger, pure, ret]

/-- Instance of C10: connecting and triggering with direction `down`. -/
theorem C10_down_connect_and_trigger_witness :
    onConnect sampleExternals "down" relayP markedState =
      (.ok (), { markedState with sent := markedState.sent ++ [(relayP.slot,
        sampleExternals.to_string
          (.array [.string "REQ", .string "sub", .object [("limit", .signed 0)]]))] }) ∧
    onTrigger sampleExternals "down" relayP (fiveEvents ++ threeNew) markedState =
      (.ok (), markedState) :=
  C10_down_connect_and_trigger sampleExternals "down" relayP markedState
    (fiveEvents ++ threeNew) (Or.inl rfl)

end Strfry
